import Mathlib

/-!
Verification of the voting-bot poll domain service and its Tarantool storage
adapter.  The Go source is embedded shallowly: the untyped Tarantool tuples
become an inductive `TValue`, the typed `model.Poll` becomes a structure with
Go's nil-able slice/map fields rendered as `Option`, and each Go function of
interest is transcribed as an executable Lean definition.  Go panics raised by
unchecked type assertions are modelled as a distinguished error value that
propagates.
-/

namespace VotingBot

/-- A dynamically typed Tarantool/msgpack value, as seen through Go's
`interface{}`: strings, unsigned integers, booleans, nil, arrays and maps. -/
inductive TValue where
  | str (s : String)
  | num (n : Nat)
  | boolean (b : Bool)
  | nilv
  | arr (xs : List TValue)
  | tmap (kvs : List (TValue × TValue))

/-- Go's checked type assertion `v.(string)` (comma-ok form): `some` on a
string, `none` otherwise. -/
def TValue.asString : TValue → Option String
  | .str s => some s
  | _ => none

/-- Go's type assertion `v.(uint64)` result. -/
def TValue.asNat : TValue → Option Nat
  | .num n => some n
  | _ => none

/-- Go's type assertion `v.(bool)` result. -/
def TValue.asBool : TValue → Option Bool
  | .boolean b => some b
  | _ => none

/-- Whether a dynamic value is a string. -/
def TValue.isStrV : TValue → Bool
  | .str _ => true
  | _ => false

/-- The typed domain entity `model.Poll`.  Go slices and maps are nil-able, and
the storage conversion helpers really do produce nil values, so `options` and
`votes` carry an `Option`: `none` is Go `nil`, `some` is a concrete
slice/map (the map is an association list). -/
structure Poll where
  id : String
  title : String
  options : Option (List String)
  createdBy : String
  createdAt : Nat
  isActive : Bool
  votes : Option (List (String × String))
deriving DecidableEq

/-- Removal of every binding of `k` from an association list. -/
def assocDel {α : Type} (m : List (String × α)) (k : String) : List (String × α) :=
  m.filter (fun kv => kv.1 != k)

/-- Extensional store/map assignment: any previous binding of `k` is dropped
and the new binding is present exactly once. -/
def assocSet {α : Type} (m : List (String × α)) (k : String) (v : α) : List (String × α) :=
  assocDel m k ++ [(k, v)]

/-- First-match association-list lookup (Go map read / select by key). -/
def lookupV {α : Type} : List (String × α) → String → Option α
  | [], _ => none
  | (k, v) :: rest, j => if k == j then some v else lookupV rest j

/-- Go map assignment `m[k] = v` on the votes map. -/
def mapSet (m : List (String × String)) (k v : String) : List (String × String) :=
  assocSet m k v

/-- The element loop of `convertToStringSlice`: each element goes through the
unchecked assertion `v.(string)`; `none` means some element was not a string
(a Go panic). -/
def asStringAll : List TValue → Option (List String)
  | [] => some []
  | x :: rest =>
    match x.asString, asStringAll rest with
    | some s, some l => some (s :: l)
    | _, _ => none

/-- `convertToStringSlice` from `internal/db/tarantool.go`: a non-array input
is silently converted to Go `nil` (`.ok none`); an array is converted
element-wise with the unchecked assertion `v.(string)`, which panics
(`.error ()`) on any non-string element. -/
def convertToStringSlice (value : TValue) : Except Unit (Option (List String)) :=
  match value with
  | .arr xs =>
    match asStringAll xs with
    | some l => .ok (some l)
    | none => .error ()
  | _ => .ok none

/-- `convertToMapStringString` from `internal/db/tarantool.go`: a non-map input
is silently converted to Go `nil`; inside a map, entries whose key or value is
not a string are silently skipped (checked assertions with `continue`). -/
def convertToMapStringString (value : TValue) : Option (List (String × String)) :=
  match value with
  | .tmap kvs =>
    some (kvs.foldl
      (fun acc kv =>
        match kv.1.asString, kv.2.asString with
        | some k, some v => mapSet acc k v
        | _, _ => acc)
      [])
  | _ => none

/-- Storage-layer outcomes: `notFound` is `ErrNotFound`, `invalidResponse` is
the `"invalid Tarantool response"` error raised when the row is not a tuple of
at least 7 fields, and `panicked` is a Go panic from an unchecked type
assertion. -/
inductive DBErr where
  | notFound
  | invalidResponse
  | panicked
deriving DecidableEq

/-- The tuple-to-`Poll` conversion performed inside `GetPoll` (and repeated in
`convertResponseToPolls`): the row must be a tuple with at least 7 fields;
fields 0,1,3,4,5 go through unchecked type assertions (panic on mismatch);
fields 2 and 6 go through the two convert helpers. -/
def decodePollTuple (t : TValue) : Except DBErr Poll :=
  match t with
  | .arr (d0 :: d1 :: d2 :: d3 :: d4 :: d5 :: d6 :: _) =>
    match d0.asString, d1.asString, d3.asString, d4.asNat, d5.asBool with
    | some i, some ti, some cb, some ca, some ia =>
      match convertToStringSlice d2 with
      | .error _ => .error .panicked
      | .ok opts => .ok ⟨i, ti, opts, cb, ca, ia, convertToMapStringString d6⟩
    | _, _, _, _, _ => .error .panicked
  | _ => .error .invalidResponse

/-- Whether a stored row matches the primary-key select for `id`: the primary
index of space `polls` is the first (string) field of the tuple. -/
def tupleKeyIs (id : String) : TValue → Bool
  | .arr (.str k :: _) => k == id
  | _ => false

/-- `TarantoolStorage.GetPoll`: select by primary key; an empty result is
`ErrNotFound`; otherwise the first row is decoded. -/
def GetPoll (rows : List TValue) (id : String) : Except DBErr Poll :=
  match rows.find? (tupleKeyIs id) with
  | none => .error .notFound
  | some t => decodePollTuple t

/-- Encoding of the `options` field as passed to Tarantool by
`CreatePoll`/`UpdatePoll` (a nil slice encodes as nil). -/
def encodeStrList : Option (List String) → TValue
  | some l => .arr (l.map TValue.str)
  | none => .nilv

/-- Encoding of the `votes` field as passed to Tarantool (a nil map encodes as
nil). -/
def encodeStrMap : Option (List (String × String)) → TValue
  | some m => .tmap (m.map fun kv => (TValue.str kv.1, TValue.str kv.2))
  | none => .nilv

/-- The 7-field tuple `[ID, Title, Options, CreatedBy, CreatedAt, IsActive,
Votes]` written by `CreatePoll` and `UpdatePoll`. -/
def encodePollTuple (p : Poll) : TValue :=
  .arr [.str p.id, .str p.title, encodeStrList p.options, .str p.createdBy,
        .num p.createdAt, .boolean p.isActive, encodeStrMap p.votes]

/-- `TarantoolStorage.UpdatePoll`: a Tarantool `Replace`, i.e. the row with the
same primary key is replaced (or the tuple inserted if absent). -/
def UpdatePollT (rows : List TValue) (p : Poll) : List TValue :=
  rows.filter (fun t => !(tupleKeyIs p.id t)) ++ [encodePollTuple p]

/-- Boolean no-duplicates check on a list of strings. -/
def strNodupB : List String → Bool
  | [] => true
  | k :: rest => !(rest.contains k) && strNodupB rest

/-- The string keys of a dynamic map value. -/
def strKeys (vs : List (TValue × TValue)) : List String :=
  vs.filterMap (fun kv => kv.1.asString)

/-- A stored row is well formed when it is exactly the 7-field tuple layout of
§4.1: string id/title/createdBy, array-of-strings options, integer createdAt,
boolean isActive, and a string-to-string map with distinct keys for votes. -/
def wellFormedTuple : TValue → Bool
  | .arr [.str _, .str _, .arr opts, .str _, .num _, .boolean _, .tmap vs] =>
    opts.all TValue.isStrV &&
    vs.all (fun kv => kv.1.isStrV && kv.2.isStrV) &&
    strNodupB (strKeys vs)
  | _ => false

/-- `TarantoolStorage.convertResponseToPolls`: rows that are not tuples of at
least 7 fields are skipped (logged and `continue`); rows whose unchecked type
assertions fail propagate the panic; all other rows are decoded in order. -/
def convertResponseToPolls : List TValue → Except DBErr (List Poll)
  | [] => .ok []
  | t :: rest =>
    match decodePollTuple t with
    | .error .invalidResponse => convertResponseToPolls rest
    | .error e => .error e
    | .ok p => (convertResponseToPolls rest).map (fun ps => p :: ps)

/-- `TarantoolStorage.ListPolls`: a full scan with select limit 1000, then the
row-by-row conversion. -/
def ListPolls (rows : List TValue) : Except DBErr (List Poll) :=
  convertResponseToPolls (rows.take 1000)

/-!
The poll service over a typed key-value store.

The service (`internal/service`) talks to storage only through the typed
`Storage` interface; for the service-level claims the store is modelled as an
association list from poll id to the typed `Poll`, with the Tarantool
operations' key semantics: select-by-primary-key, replace (upsert on the key),
idempotent delete, insert failing on a duplicate key.
-/

/-- The typed key-value store the service operates against. -/
abbrev PStore : Type := List (String × Poll)

/-- Primary-key lookup in the typed store (the adapter's `GetPoll`, which at
this level either finds the poll or reports `ErrNotFound` as `none`). -/
def plookup (st : PStore) (id : String) : Option Poll :=
  lookupV st id

/-- Tarantool `Replace` at the typed level: the record keyed `k` is replaced by
`p` (inserted if absent). -/
def pset (st : PStore) (k : String) (p : Poll) : PStore :=
  assocSet st k p

/-- `Storage.UpdatePoll`: replace keyed by the poll's own id. -/
def sUpdatePoll (st : PStore) (p : Poll) : PStore :=
  pset st p.id p

/-- `Storage.DeletePoll`: idempotent delete by key. -/
def sDeletePoll (st : PStore) (id : String) : PStore :=
  assocDel st id

/-- Reading a Go slice that may be nil: `range` over a nil slice is empty. -/
def sliceVals (o : Option (List String)) : List String :=
  o.getD []

/-- Reading a Go map that may be nil: iteration/lookup over a nil map behaves
as over an empty one. -/
def mapVals (o : Option (List (String × String))) : List (String × String) :=
  o.getD []

/-- The service-level errors of `internal/service` (`ErrPollNotFound`,
`ErrPollInactive`, `ErrInvalidOption`, `ErrNotAuthorized`, the two
`CreatePoll` argument errors, and the wrap of any other storage error). -/
inductive SvcErr where
  | pollNotFound
  | pollInactive
  | invalidOption
  | notAuthorized
  | emptyTitle
  | tooFewOptions
  | storageFailure
deriving DecidableEq

/-- `Service.CreatePoll`: reject an empty title, then fewer than two options,
otherwise build the poll with a caller-supplied fresh id and timestamp
(`uuid.New()`, `time.Now()`), `IsActive = true` and an empty votes map, and
insert it (Tarantool `Insert`, which fails on a duplicate key). -/
def CreatePoll (st : PStore) (title : String) (options : List String)
    (creatorID : String) (newID : String) (now : Nat) :
    Except SvcErr Poll × PStore :=
  if title = "" then (.error .emptyTitle, st)
  else if options.length < 2 then (.error .tooFewOptions, st)
  else
    let poll : Poll := ⟨newID, title, some options, creatorID, now, true, some []⟩
    match plookup st newID with
    | some _ => (.error .storageFailure, st)
    | none => (.ok poll, st ++ [(newID, poll)])

/-- `Service.HandleVote`: load the poll (`PollNotFound` if absent), reject an
inactive poll, reject an option not in the poll's options, otherwise upsert
`votes[userID] = option` and persist via replace. -/
def HandleVote (st : PStore) (pollID option userID : String) :
    Except SvcErr Unit × PStore :=
  match plookup st pollID with
  | none => (.error .pollNotFound, st)
  | some poll =>
    if !poll.isActive then (.error .pollInactive, st)
    else if !((sliceVals poll.options).any (fun opt => opt == option)) then
      (.error .invalidOption, st)
    else
      let poll' := { poll with votes := some (mapSet (mapVals poll.votes) userID option) }
      (.ok (), sUpdatePoll st poll')

/-- Go tally-map assignment `results[option] = v`. -/
def natMapSet (m : List (String × Nat)) (k : String) (v : Nat) : List (String × Nat) :=
  assocSet m k v

/-- Go `results[vote]++`: a missing key reads as 0 and the incremented value is
stored. -/
def natMapIncr (m : List (String × Nat)) (k : String) : List (String × Nat) :=
  natMapSet m k ((lookupV m k).getD 0 + 1)

/-- The sum of all counts in a tally map. -/
def natMapSum (m : List (String × Nat)) : Nat :=
  (m.map (fun kv => kv.2)).sum

/-- The first loop of `GetResults`: every option's count starts at 0. -/
def initTally (options : List String) : List (String × Nat) :=
  options.foldl (fun r o => natMapSet r o 0) []

/-- The second loop of `GetResults`: each vote bumps its option's count. -/
def tallyVotes (votes : List (String × String)) (init : List (String × Nat)) :
    List (String × Nat) :=
  votes.foldl (fun r kv => natMapIncr r kv.2) init

/-- `Service.GetResults`: load the poll (`PollNotFound` if absent), initialise
every option's count to 0, then bump the count of each vote's value. -/
def GetResults (st : PStore) (pollID : String) :
    Except SvcErr (List (String × Nat)) :=
  match plookup st pollID with
  | none => .error .pollNotFound
  | some poll =>
    .ok (tallyVotes (mapVals poll.votes) (initTally (sliceVals poll.options)))

/-- `Service.EndPoll`: load the poll, reject a non-creator, succeed as a no-op
if already inactive, otherwise flip `IsActive` to false and persist. -/
def EndPoll (st : PStore) (pollID userID : String) :
    Except SvcErr Unit × PStore :=
  match plookup st pollID with
  | none => (.error .pollNotFound, st)
  | some poll =>
    if poll.createdBy != userID then (.error .notAuthorized, st)
    else if !poll.isActive then (.ok (), st)
    else (.ok (), sUpdatePoll st { poll with isActive := false })

/-- `Service.DeletePoll`: load the poll, reject a non-creator, otherwise delete
the record. -/
def DeletePoll (st : PStore) (pollID userID : String) :
    Except SvcErr Unit × PStore :=
  match plookup st pollID with
  | none => (.error .pollNotFound, st)
  | some poll =>
    if poll.createdBy != userID then (.error .notAuthorized, st)
    else (.ok (), sDeletePoll st pollID)

/-- A mutating service call, for stating properties over sequences of
operations. -/
inductive Op where
  | create (title : String) (options : List String) (creatorID newID : String) (now : Nat)
  | vote (pollID option userID : String)
  | endp (pollID userID : String)
  | delete (pollID userID : String)

/-- The fresh id an operation would create a poll under, if any. -/
def Op.createdID : Op → Option String
  | .create _ _ _ newID _ => some newID
  | _ => none

/-- The store after one service operation (the result value is discarded). -/
def applyOp (st : PStore) : Op → PStore
  | .create t o c i n => (CreatePoll st t o c i n).2
  | .vote p o u => (HandleVote st p o u).2
  | .endp p u => (EndPoll st p u).2
  | .delete p u => (DeletePoll st p u).2

/-- The store after a sequence of service operations. -/
def applyOps (st : PStore) (ops : List Op) : PStore :=
  ops.foldl applyOp st

/-- Store well-formedness: every record is keyed by its poll's own id (true of
every Tarantool row, whose primary key is the tuple's id field). -/
def StoreWF (st : PStore) : Prop :=
  ∀ kv ∈ st, (kv : String × Poll).2.id = kv.1

/-!
Command argument parsing.

`parseCommandArgs` from `internal/api/handler.go`, transcribed over a list of
characters (the Go loop is over bytes, but the quote and whitespace bytes it
branches on never occur inside a multi-byte UTF-8 sequence, so the
character-level model is faithful).
-/

/-- The whitespace bytes the Go loop separates on. -/
def isWS (c : Char) : Bool :=
  c == ' ' || c == '\t' || c == '\n' || c == '\r'

/-- The Go loop state: flushed arguments, the current `strings.Builder`
content, and the `inQuotes` flag. -/
structure ParseState where
  args : List (List Char)
  current : List Char
  inQuotes : Bool
deriving DecidableEq

/-- One iteration of the `parseCommandArgs` loop. -/
def parseStep (s : ParseState) (c : Char) : ParseState :=
  if c == '"' then
    let inQ := !s.inQuotes
    if !inQ && !s.current.isEmpty then ⟨s.args ++ [s.current], [], inQ⟩
    else ⟨s.args, s.current, inQ⟩
  else if isWS c then
    if s.inQuotes then ⟨s.args, s.current ++ [c], s.inQuotes⟩
    else if !s.current.isEmpty then ⟨s.args ++ [s.current], [], s.inQuotes⟩
    else s
  else ⟨s.args, s.current ++ [c], s.inQuotes⟩

/-- The flush after the loop: a non-empty current argument is appended. -/
def parseFinish (s : ParseState) : List (List Char) :=
  if !s.current.isEmpty then s.args ++ [s.current] else s.args

/-- `parseCommandArgs`: fold the loop body over the text, then flush. -/
def parseCommandArgs (text : List Char) : List (List Char) :=
  parseFinish (text.foldl parseStep ⟨[], [], false⟩)

/-- Modelled from the spec sentence "splits free text on whitespace": the
maximal whitespace-free runs of the text, in order, with `cur` the run read so
far. -/
def specSplitWSAux : List Char → List Char → List (List Char)
  | [], cur => if cur.isEmpty then [] else [cur]
  | c :: cs, cur =>
    if isWS c then
      if cur.isEmpty then specSplitWSAux cs [] else cur :: specSplitWSAux cs []
    else specSplitWSAux cs (cur ++ [c])

/-- Modelled from the spec sentence "splits free text on whitespace". -/
def specSplitWS (text : List Char) : List (List Char) :=
  specSplitWSAux text []

/-- A command-line token: `(true, s)` is the quoted argument `"s"`, `(false,
s)` a plain word. -/
def renderTok : Bool × List Char → List Char
  | (true, s) => '"' :: s ++ ['"']
  | (false, s) => s

/-- A space-separated token sequence (each token followed by one space). -/
def renderToks (ts : List (Bool × List Char)) : List Char :=
  (ts.map (fun t => renderTok t ++ [' '])).flatten

/-- A token the spec's parsing description applies to: non-empty, no embedded
quote, and no whitespace unless quoted. -/
def GoodTok : Bool × List Char → Prop
  | (q, s) => s ≠ [] ∧ (∀ c ∈ s, c ≠ '"') ∧ (q = false → ∀ c ∈ s, isWS c = false)

/-- Key distinctness of an association list. -/
def NodupKeys {α : Type} (m : List (String × α)) : Prop :=
  (m.map Prod.fst).Nodup

/-! ## Association-list lemmas -/

theorem lookupV_append {α : Type} (m₁ m₂ : List (String × α)) (j : String) :
    lookupV (m₁ ++ m₂) j = ((lookupV m₁ j).orElse (fun _ => lookupV m₂ j)) := by
  induction m₁ with
  | nil => simp [lookupV]
  | cons kv rest ih =>
    by_cases h : kv.1 == j
    · simp [lookupV, h]
    · simp [lookupV, h, ih]

theorem lookupV_assocDel_ne {α : Type} (m : List (String × α)) (k j : String)
    (h : j ≠ k) : lookupV (assocDel m k) j = lookupV m j := by
  induction m with
  | nil => rfl
  | cons kv rest ih =>
    rcases kv with ⟨k0, v0⟩
    simp only [assocDel, List.filter_cons] at *
    by_cases hk : k0 = k
    · subst hk
      have hbeq : (k0 == j) = false := beq_eq_false_iff_ne.mpr fun e => h e.symm
      simp [lookupV, hbeq, ih]
    · have hb : (k0 != k) = true := bne_iff_ne.mpr hk
      by_cases hj : k0 = j
      · subst hj
        simp [hb, lookupV]
      · have hbeq : (k0 == j) = false := beq_eq_false_iff_ne.mpr hj
        simp [hb, lookupV, hbeq, ih]

theorem lookupV_assocDel_self {α : Type} (m : List (String × α)) (k : String) :
    lookupV (assocDel m k) k = none := by
  induction m with
  | nil => rfl
  | cons kv rest ih =>
    rcases kv with ⟨k0, v0⟩
    simp only [assocDel, List.filter_cons] at *
    by_cases hk : k0 = k
    · subst hk
      simpa using ih
    · have hb : (k0 != k) = true := bne_iff_ne.mpr hk
      have hbeq : (k0 == k) = false := beq_eq_false_iff_ne.mpr hk
      simp [hb, lookupV, hbeq, ih]

theorem lookupV_assocSet_same {α : Type} (m : List (String × α)) (k : String) (v : α) :
    lookupV (assocSet m k v) k = some v := by
  rw [assocSet, lookupV_append, lookupV_assocDel_self]
  simp [lookupV]

theorem lookupV_assocSet_ne {α : Type} (m : List (String × α)) (k j : String) (v : α)
    (h : j ≠ k) : lookupV (assocSet m k v) j = lookupV m j := by
  rw [assocSet, lookupV_append, lookupV_assocDel_ne m k j h]
  have hbeq : (k == j) = false := beq_eq_false_iff_ne.mpr fun e => h e.symm
  cases hm : lookupV m j <;> simp [lookupV, hbeq, Option.orElse]

theorem assocDel_eq_self {α : Type} (m : List (String × α)) (k : String)
    (h : ∀ kv ∈ m, (kv : String × α).1 ≠ k) : assocDel m k = m :=
  List.filter_eq_self.mpr fun kv hm => bne_iff_ne.mpr (h kv hm)

theorem mem_assocSet {α : Type} (m : List (String × α)) (k : String) (v : α)
    (kv : String × α) (h : kv ∈ assocSet m k v) : kv ∈ m ∨ kv = (k, v) := by
  simp [assocSet, assocDel, List.mem_append, List.mem_filter] at h
  rcases h with ⟨h1, _⟩ | h2
  · exact Or.inl h1
  · exact Or.inr h2

theorem keys_assocDel_not_mem {α : Type} (m : List (String × α)) (k : String) :
    k ∉ (assocDel m k).map Prod.fst := by
  intro h
  simp [assocDel, List.mem_map, List.mem_filter] at h

theorem nodupKeys_sublist {α : Type} (m₁ m₂ : List (String × α))
    (hs : m₁.Sublist m₂) (h : NodupKeys m₂) : NodupKeys m₁ :=
  List.Nodup.sublist (List.Sublist.map Prod.fst hs) h

theorem nodupKeys_assocDel {α : Type} (m : List (String × α)) (k : String)
    (h : NodupKeys m) : NodupKeys (assocDel m k) :=
  nodupKeys_sublist _ m (List.filter_sublist m) h

theorem nodupKeys_assocSet {α : Type} (m : List (String × α)) (k : String) (v : α)
    (h : NodupKeys m) : NodupKeys (assocSet m k v) := by
  have hdel := nodupKeys_assocDel m k h
  have hnm := keys_assocDel_not_mem m k
  unfold NodupKeys assocSet at *
  rw [List.map_append, List.nodup_append]
  refine ⟨hdel, by simp, ?_⟩
  intro a ha hb
  simp only [List.map_cons, List.map_nil, List.mem_singleton] at hb
  exact hnm (hb ▸ ha)

theorem lookupV_mem {α : Type} (m : List (String × α)) (k : String) (v : α)
    (h : lookupV m k = some v) : (k, v) ∈ m := by
  induction m with
  | nil => simp [lookupV] at h
  | cons kv rest ih =>
    rcases kv with ⟨k0, v0⟩
    by_cases hk : k0 = k
    · subst hk
      simp [lookupV] at h
      subst h
      exact List.mem_cons_self _ _
    · have hbeq : (k0 == k) = false := beq_eq_false_iff_ne.mpr hk
      simp only [lookupV, hbeq, if_false] at h
      exact List.mem_cons_of_mem _ (ih h)

/-! ## Tally lemmas (for `GetResults`) -/

theorem natMapSum_append (m₁ m₂ : List (String × Nat)) :
    natMapSum (m₁ ++ m₂) = natMapSum m₁ + natMapSum m₂ := by
  simp [natMapSum]

theorem natMapSum_assocSet (m : List (String × Nat)) (k : String) (v : Nat) :
    natMapSum (assocSet m k v) = natMapSum (assocDel m k) + v := by
  rw [assocSet, natMapSum_append]
  simp [natMapSum]

theorem nodupKeys_tail {α : Type} (kv : String × α) (rest : List (String × α))
    (h : NodupKeys (kv :: rest)) : NodupKeys rest := by
  rw [NodupKeys, List.map_cons, List.nodup_cons] at h
  exact h.2

theorem nodupKeys_head_not_mem {α : Type} (kv : String × α) (rest : List (String × α))
    (h : NodupKeys (kv :: rest)) : ∀ kv2 ∈ rest, (kv2 : String × α).1 ≠ kv.1 := by
  rw [NodupKeys, List.map_cons, List.nodup_cons] at h
  intro kv2 h2 he
  exact h.1 (he ▸ List.mem_map_of_mem Prod.fst h2)

theorem natMapSum_decompose (m : List (String × Nat)) (k : String) (h : NodupKeys m) :
    natMapSum m = natMapSum (assocDel m k) + (lookupV m k).getD 0 := by
  induction m with
  | nil => rfl
  | cons kv rest ih =>
    rcases kv with ⟨k0, v0⟩
    by_cases hk : k0 = k
    · subst hk
      have hall : ∀ kv2 ∈ rest, (kv2 : String × Nat).1 ≠ k0 :=
        nodupKeys_head_not_mem _ _ h
      have hdel : assocDel ((k0, v0) :: rest) k0 = rest := by
        rw [assocDel, List.filter_cons]
        simp only [bne_self_eq_false, Bool.false_eq_true, if_false]
        exact assocDel_eq_self rest k0 hall
      rw [hdel]
      simp [natMapSum, lookupV, Nat.add_comm]
    · have hb : (k0 != k) = true := bne_iff_ne.mpr hk
      have hbeq : (k0 == k) = false := beq_eq_false_iff_ne.mpr hk
      have hdel : assocDel ((k0, v0) :: rest) k = (k0, v0) :: assocDel rest k := by
        rw [assocDel, List.filter_cons, if_pos hb]
        rfl
      rw [hdel]
      have := ih (nodupKeys_tail _ _ h)
      simp [natMapSum, lookupV, hbeq] at this ⊢
      omega

theorem natMapSum_incr (m : List (String × Nat)) (k : String) (h : NodupKeys m) :
    natMapSum (natMapIncr m k) = natMapSum m + 1 := by
  rw [natMapIncr, natMapSet, natMapSum_assocSet, natMapSum_decompose m k h]
  omega

theorem lookupV_natMapIncr_ne (m : List (String × Nat)) (k j : String) (h : j ≠ k) :
    lookupV (natMapIncr m k) j = lookupV m j :=
  lookupV_assocSet_ne m k j _ h

theorem lookupV_natMapIncr_isSome (m : List (String × Nat)) (k j : String)
    (hs : (lookupV m j).isSome = true) :
    (lookupV (natMapIncr m k) j).isSome = true := by
  by_cases hj : j = k
  · subst hj
    rw [natMapIncr, natMapSet, lookupV_assocSet_same]
    rfl
  · rw [lookupV_natMapIncr_ne m k j hj]
    exact hs

theorem nodupKeys_natMapIncr (m : List (String × Nat)) (k : String)
    (h : NodupKeys m) : NodupKeys (natMapIncr m k) :=
  nodupKeys_assocSet m k _ h

theorem tallyVotes_cons (kv : String × String) (votes : List (String × String))
    (m : List (String × Nat)) :
    tallyVotes (kv :: votes) m = tallyVotes votes (natMapIncr m kv.2) := rfl

theorem tallyVotes_nodup (votes : List (String × String)) (m : List (String × Nat))
    (h : NodupKeys m) : NodupKeys (tallyVotes votes m) := by
  induction votes generalizing m with
  | nil => exact h
  | cons kv rest ih =>
    rw [tallyVotes_cons]
    exact ih _ (nodupKeys_natMapIncr m kv.2 h)

theorem tallyVotes_sum (votes : List (String × String)) (m : List (String × Nat))
    (h : NodupKeys m) :
    natMapSum (tallyVotes votes m) = natMapSum m + votes.length := by
  induction votes generalizing m with
  | nil => rfl
  | cons kv rest ih =>
    rw [tallyVotes_cons, ih _ (nodupKeys_natMapIncr m kv.2 h),
      natMapSum_incr m kv.2 h]
    simp
    omega

theorem tallyVotes_isSome (votes : List (String × String)) (m : List (String × Nat))
    (j : String) (hs : (lookupV m j).isSome = true) :
    (lookupV (tallyVotes votes m) j).isSome = true := by
  induction votes generalizing m with
  | nil => exact hs
  | cons kv rest ih =>
    rw [tallyVotes_cons]
    exact ih _ (lookupV_natMapIncr_isSome m kv.2 j hs)

theorem tallyVotes_lookup_ne (votes : List (String × String)) (m : List (String × Nat))
    (j : String) (hv : ∀ kv ∈ votes, (kv : String × String).2 ≠ j) :
    lookupV (tallyVotes votes m) j = lookupV m j := by
  induction votes generalizing m with
  | nil => rfl
  | cons kv rest ih =>
    rw [tallyVotes_cons,
      ih _ fun kv2 h2 => hv kv2 (List.mem_cons_of_mem _ h2),
      lookupV_natMapIncr_ne m kv.2 j fun e => hv kv (List.mem_cons_self _ _) e.symm]

theorem initTally_lookup_gen (options : List String) (acc : List (String × Nat))
    (o : String) :
    lookupV (options.foldl (fun r o2 => natMapSet r o2 0) acc) o =
      if o ∈ options then some 0 else lookupV acc o := by
  induction options generalizing acc with
  | nil => simp
  | cons o' rest ih =>
    rw [List.foldl_cons, ih]
    by_cases ho : o ∈ rest
    · simp [ho]
    · by_cases he : o = o'
      · subst he
        simp [ho, natMapSet, lookupV_assocSet_same]
      · simp [ho, he, natMapSet, lookupV_assocSet_ne acc o' o 0 he]

theorem initTally_lookup (options : List String) (o : String) (ho : o ∈ options) :
    lookupV (initTally options) o = some 0 := by
  rw [initTally, initTally_lookup_gen, if_pos ho]

theorem initTally_nodup_gen (options : List String) (acc : List (String × Nat))
    (h : NodupKeys acc) :
    NodupKeys (options.foldl (fun r o2 => natMapSet r o2 0) acc) := by
  induction options generalizing acc with
  | nil => exact h
  | cons o' rest ih =>
    rw [List.foldl_cons]
    exact ih _ (nodupKeys_assocSet acc o' 0 h)

theorem initTally_nodup (options : List String) : NodupKeys (initTally options) :=
  initTally_nodup_gen options [] (by simp [NodupKeys])

theorem initTally_vals_zero_gen (options : List String) (acc : List (String × Nat))
    (h : ∀ kv ∈ acc, (kv : String × Nat).2 = 0) :
    ∀ kv ∈ options.foldl (fun r o2 => natMapSet r o2 0) acc,
      (kv : String × Nat).2 = 0 := by
  induction options generalizing acc with
  | nil => exact h
  | cons o' rest ih =>
    rw [List.foldl_cons]
    refine ih _ fun kv hm => ?_
    rcases mem_assocSet acc o' 0 kv hm with hin | he
    · exact h kv hin
    · rw [he]

theorem natMapSum_eq_zero (m : List (String × Nat))
    (h : ∀ kv ∈ m, (kv : String × Nat).2 = 0) : natMapSum m = 0 := by
  induction m with
  | nil => rfl
  | cons kv rest ih =>
    simp only [natMapSum, List.map_cons, List.sum_cons]
    rw [h kv (List.mem_cons_self _ _)]
    simpa [natMapSum] using ih fun kv2 h2 => h kv2 (List.mem_cons_of_mem _ h2)

theorem initTally_sum (options : List String) : natMapSum (initTally options) = 0 :=
  natMapSum_eq_zero _ (initTally_vals_zero_gen options [] (by simp))

theorem filter_assocSet_self {α : Type} (m : List (String × α)) (k : String) (v : α) :
    (assocSet m k v).filter (fun kv => kv.1 == k) = [(k, v)] := by
  rw [assocSet, List.filter_append]
  have h1 : (assocDel m k).filter (fun kv => kv.1 == k) = [] := by
    rw [List.filter_eq_nil_iff]
    intro kv hm
    have : (kv.1 != k) = true := (List.mem_filter.mp hm).2
    simpa using bne_iff_ne.mp this
  rw [h1]
  simp

/-! ## Concrete data for witnesses -/

/-- A concrete active poll. -/
def demoPoll : Poll :=
  ⟨"p1", "Favorite color?", some ["Red", "Green", "Blue"], "alice", 100, true,
   some [("bob", "Red")]⟩

/-- A concrete closed poll. -/
def demoClosed : Poll :=
  ⟨"p2", "Old poll", some ["Yes", "No"], "alice", 50, false, some [("carol", "Yes")]⟩

/-- A concrete store holding both demo polls. -/
def demoStore : PStore := [("p1", demoPoll), ("p2", demoClosed)]

/-! ## Claim theorems: the poll service -/

/-- C3: `CreatePoll` rejects an empty title, or fewer than two options, with
an argument error and no storage write; on valid input with a fresh id it
returns and stores a poll that is active, has no votes, and carries exactly
the input options in order. -/
theorem createPoll_spec (st : PStore) (title : String) (options : List String)
    (creatorID newID : String) (now : Nat) :
    (title = "" →
      CreatePoll st title options creatorID newID now = (.error .emptyTitle, st)) ∧
    (title ≠ "" → options.length < 2 →
      CreatePoll st title options creatorID newID now = (.error .tooFewOptions, st)) ∧
    (title ≠ "" → 2 ≤ options.length → plookup st newID = none →
      CreatePoll st title options creatorID newID now =
        (.ok ⟨newID, title, some options, creatorID, now, true, some []⟩,
         st ++ [(newID, ⟨newID, title, some options, creatorID, now, true, some []⟩)])) := by
  refine ⟨?_, ?_, ?_⟩
  · intro h
    simp [CreatePoll, h]
  · intro h1 h2
    simp [CreatePoll, h1, h2]
  · intro h1 h2 h3
    have hlt : ¬ options.length < 2 := by omega
    simp [CreatePoll, h1, hlt, h3]

/-- Witness for C3: a valid creation and an empty-title rejection at concrete
inputs. -/
theorem createPoll_spec_witness :
    CreatePoll [] "Q" ["A", "B"] "alice" "p9" 7 =
      (.ok ⟨"p9", "Q", some ["A", "B"], "alice", 7, true, some []⟩,
       [("p9", ⟨"p9", "Q", some ["A", "B"], "alice", 7, true, some []⟩)]) ∧
    CreatePoll [] "" ["A", "B"] "alice" "p9" 7 = (.error .emptyTitle, []) :=
  ⟨(createPoll_spec [] "Q" ["A", "B"] "alice" "p9" 7).2.2 (by decide) (by decide) rfl,
   (createPoll_spec [] "" ["A", "B"] "alice" "p9" 7).1 rfl⟩

/-- C2: `HandleVote` fails `PollNotFound` when the poll is absent,
`PollInactive` when it is closed, `InvalidOption` when the option is not one
of the poll's options — each failure leaving the store unchanged — and
otherwise upserts `votes[userID] = option` and persists via replace, so the
votes map holds exactly one entry for that user, equal to the latest vote. -/
theorem handleVote_spec (st : PStore) (pollID option userID : String) :
    (plookup st pollID = none →
      HandleVote st pollID option userID = (.error .pollNotFound, st)) ∧
    (∀ poll, plookup st pollID = some poll → poll.isActive = false →
      HandleVote st pollID option userID = (.error .pollInactive, st)) ∧
    (∀ poll, plookup st pollID = some poll → poll.isActive = true →
      option ∉ sliceVals poll.options →
      HandleVote st pollID option userID = (.error .invalidOption, st)) ∧
    (∀ poll, plookup st pollID = some poll → poll.isActive = true →
      option ∈ sliceVals poll.options →
      HandleVote st pollID option userID =
        (.ok (), sUpdatePoll st
          { poll with votes := some (mapSet (mapVals poll.votes) userID option) }) ∧
      lookupV (mapSet (mapVals poll.votes) userID option) userID = some option ∧
      ((mapSet (mapVals poll.votes) userID option).filter
          (fun kv => kv.1 == userID)).length = 1) := by
  refine ⟨?_, ?_, ?_, ?_⟩
  · intro h
    simp [HandleVote, h]
  · intro poll h hi
    simp [HandleVote, h, hi]
  · intro poll h hi ho
    have hany : (sliceVals poll.options).any (fun opt => opt == option) = false := by
      simp only [List.any_eq_false, beq_iff_eq]
      exact fun x hx e => ho (e ▸ hx)
    simp [HandleVote, h, hi, hany]
  · intro poll h hi ho
    have hany : (sliceVals poll.options).any (fun opt => opt == option) = true := by
      simp only [List.any_eq_true, beq_iff_eq]
      exact ⟨option, ho, rfl⟩
    refine ⟨by simp [HandleVote, h, hi, hany], ?_, ?_⟩
    · exact lookupV_assocSet_same _ _ _
    · rw [mapSet, filter_assocSet_self]
      rfl

/-- Witness for C2: on the demo store, a re-vote by `bob` succeeds and leaves a
single `bob` entry with the new option, and a vote on a missing poll fails. -/
theorem handleVote_spec_witness :
    (demoPoll.isActive = true ∧ "Green" ∈ sliceVals demoPoll.options) ∧
    HandleVote demoStore "p1" "Green" "bob" =
      (.ok (), sUpdatePoll demoStore
        { demoPoll with votes := some (mapSet (mapVals demoPoll.votes) "bob" "Green") }) ∧
    lookupV (mapSet (mapVals demoPoll.votes) "bob" "Green") "bob" = some "Green" ∧
    HandleVote demoStore "zzz" "Green" "bob" = (.error .pollNotFound, demoStore) :=
  ⟨⟨rfl, by decide⟩,
   ((handleVote_spec demoStore "p1" "Green" "bob").2.2.2 demoPoll (by decide) rfl
      (by decide)).1,
   ((handleVote_spec demoStore "p1" "Green" "bob").2.2.2 demoPoll (by decide) rfl
      (by decide)).2.1,
   (handleVote_spec demoStore "zzz" "Green" "bob").1 (by decide)⟩

/-- C6: for an existing poll, `GetResults` succeeds with a tally that has an
entry for every option, reports 0 for an option no vote chose, and whose
counts sum to the number of vote entries. -/
theorem getResults_spec (st : PStore) (pollID : String) (poll : Poll)
    (h : plookup st pollID = some poll) :
    GetResults st pollID =
      .ok (tallyVotes (mapVals poll.votes) (initTally (sliceVals poll.options))) ∧
    (∀ o ∈ sliceVals poll.options,
      (lookupV (tallyVotes (mapVals poll.votes)
        (initTally (sliceVals poll.options))) o).isSome = true) ∧
    (∀ o ∈ sliceVals poll.options,
      (∀ kv ∈ mapVals poll.votes, (kv : String × String).2 ≠ o) →
      lookupV (tallyVotes (mapVals poll.votes)
        (initTally (sliceVals poll.options))) o = some 0) ∧
    natMapSum (tallyVotes (mapVals poll.votes) (initTally (sliceVals poll.options))) =
      (mapVals poll.votes).length := by
  refine ⟨by simp [GetResults, h], ?_, ?_, ?_⟩
  · intro o ho
    refine tallyVotes_isSome _ _ o ?_
    rw [initTally_lookup _ o ho]
    rfl
  · intro o ho hv
    rw [tallyVotes_lookup_ne _ _ o hv, initTally_lookup _ o ho]
  · rw [tallyVotes_sum _ _ (initTally_nodup _), initTally_sum]
    simp

/-- Witness for C6: the demo poll's tally covers all three options, gives Blue
0 votes, and sums to the single stored vote. -/
theorem getResults_spec_witness :
    GetResults demoStore "p1" =
      .ok (tallyVotes (mapVals demoPoll.votes) (initTally (sliceVals demoPoll.options))) ∧
    lookupV (tallyVotes (mapVals demoPoll.votes)
      (initTally (sliceVals demoPoll.options))) "Blue" = some 0 ∧
    natMapSum (tallyVotes (mapVals demoPoll.votes)
      (initTally (sliceVals demoPoll.options))) = 1 :=
  ⟨(getResults_spec demoStore "p1" demoPoll (by decide)).1,
   (getResults_spec demoStore "p1" demoPoll (by decide)).2.2.1 "Blue" (by decide)
     (by decide),
   (getResults_spec demoStore "p1" demoPoll (by decide)).2.2.2⟩

/-- C5: `EndPoll` and `DeletePoll` by a user other than the creator fail with
`NotAuthorized` and leave the store unchanged: the same poll is still stored
afterwards (in particular its `isActive` flag is untouched, and the record
still exists after the failed delete). -/
theorem endDelete_notAuthorized (st : PStore) (pollID userID : String) (poll : Poll)
    (h : plookup st pollID = some poll) (hne : poll.createdBy ≠ userID) :
    EndPoll st pollID userID = (.error .notAuthorized, st) ∧
    DeletePoll st pollID userID = (.error .notAuthorized, st) ∧
    plookup (EndPoll st pollID userID).2 pollID = some poll ∧
    plookup (DeletePoll st pollID userID).2 pollID = some poll := by
  have hb : (poll.createdBy != userID) = true := bne_iff_ne.mpr hne
  have he : EndPoll st pollID userID = (.error .notAuthorized, st) := by
    simp [EndPoll, h, hb]
  have hd : DeletePoll st pollID userID = (.error .notAuthorized, st) := by
    simp [DeletePoll, h, hb]
  exact ⟨he, hd, by rw [he]; exact h, by rw [hd]; exact h⟩

/-- Witness for C5: `bob` can neither end nor delete `alice`'s poll, which
remains stored. -/
theorem endDelete_notAuthorized_witness :
    EndPoll demoStore "p1" "bob" = (.error .notAuthorized, demoStore) ∧
    DeletePoll demoStore "p1" "bob" = (.error .notAuthorized, demoStore) ∧
    plookup (DeletePoll demoStore "p1" "bob").2 "p1" = some demoPoll :=
  ⟨(endDelete_notAuthorized demoStore "p1" "bob" demoPoll (by decide) (by decide)).1,
   (endDelete_notAuthorized demoStore "p1" "bob" demoPoll (by decide) (by decide)).2.1,
   (endDelete_notAuthorized demoStore "p1" "bob" demoPoll (by decide) (by decide)).2.2.2⟩

/-- C10: the authorization check in `EndPoll` runs before the already-inactive
no-op, so on an inactive poll a non-creator gets `NotAuthorized` while the
creator gets the silent no-op success. -/
theorem endPoll_auth_before_noop (st : PStore) (pollID userID : String) (poll : Poll)
    (h : plookup st pollID = some poll) (hne : poll.createdBy ≠ userID)
    (hi : poll.isActive = false) :
    EndPoll st pollID userID = (.error .notAuthorized, st) ∧
    EndPoll st pollID poll.createdBy = (.ok (), st) := by
  have hb : (poll.createdBy != userID) = true := bne_iff_ne.mpr hne
  refine ⟨by simp [EndPoll, h, hb], ?_⟩
  simp [EndPoll, h, hi]

/-- Witness for C10: on the closed demo poll, `bob` gets `NotAuthorized`,
`alice` gets the no-op success. -/
theorem endPoll_auth_before_noop_witness :
    EndPoll demoStore "p2" "bob" = (.error .notAuthorized, demoStore) ∧
    EndPoll demoStore "p2" "alice" = (.ok (), demoStore) :=
  ⟨(endPoll_auth_before_noop demoStore "p2" "bob" demoClosed (by decide) (by decide)
      rfl).1,
   (endPoll_auth_before_noop demoStore "p2" "bob" demoClosed (by decide) (by decide)
      rfl).2⟩

/-! ## Store evolution lemmas (C4) -/

theorem storeWF_pset (st : PStore) (p : Poll) (h : StoreWF st) :
    StoreWF (sUpdatePoll st p) := by
  intro kv hm
  rcases mem_assocSet st p.id p kv hm with hin | he
  · exact h kv hin
  · rw [he]

theorem storeWF_del (st : PStore) (id : String) (h : StoreWF st) :
    StoreWF (sDeletePoll st id) :=
  fun kv hm => h kv (List.mem_of_mem_filter hm)

theorem storeWF_append (st : PStore) (id : String) (p : Poll) (hp : p.id = id)
    (h : StoreWF st) : StoreWF (st ++ [(id, p)]) := by
  intro kv hm
  rcases List.mem_append.mp hm with hin | he
  · exact h kv hin
  · simp at he
    rw [he]
    exact hp

theorem plookup_append_ne (st : PStore) (i pid : String) (p : Poll) (h : i ≠ pid) :
    plookup (st ++ [(i, p)]) pid = plookup st pid := by
  rw [plookup, lookupV_append]
  have hbeq : (i == pid) = false := beq_eq_false_iff_ne.mpr h
  cases hm : lookupV st pid <;> simp [lookupV, hbeq, Option.orElse, plookup, hm]

theorem createPoll_store (st : PStore) (t : String) (o : List String) (c i : String)
    (n : Nat) :
    (CreatePoll st t o c i n).2 = st ∨
    (CreatePoll st t o c i n).2 = st ++ [(i, ⟨i, t, some o, c, n, true, some []⟩)] := by
  unfold CreatePoll
  by_cases h1 : t = ""
  · simp [h1]
  · by_cases h2 : o.length < 2
    · simp [h1, h2]
    · cases h3 : plookup st i <;> simp [h1, h2, h3]

theorem handleVote_store (st : PStore) (pid o u : String) :
    (HandleVote st pid o u).2 = st ∨
    ∃ poll, plookup st pid = some poll ∧ poll.isActive = true ∧
      (HandleVote st pid o u).2 =
        sUpdatePoll st { poll with votes := some (mapSet (mapVals poll.votes) u o) } := by
  unfold HandleVote
  cases h : plookup st pid with
  | none => simp
  | some poll =>
    by_cases hi : poll.isActive
    · by_cases hv : (sliceVals poll.options).any (fun opt => opt == o)
      · exact Or.inr ⟨poll, rfl, hi, by simp [hi, hv]⟩
      · simp [hi, hv]
    · have hif : poll.isActive = false := by simpa using hi
      simp [hif]

theorem endPoll_store (st : PStore) (pid u : String) :
    (EndPoll st pid u).2 = st ∨
    ∃ poll, plookup st pid = some poll ∧ poll.isActive = true ∧
      (EndPoll st pid u).2 = sUpdatePoll st { poll with isActive := false } := by
  unfold EndPoll
  cases h : plookup st pid with
  | none => simp
  | some poll =>
    by_cases hc : poll.createdBy = u
    · by_cases hi : poll.isActive
      · exact Or.inr ⟨poll, rfl, hi, by simp [hc, hi]⟩
      · have hif : poll.isActive = false := by simpa using hi
        simp [hc, hif]
    · simp [hc]

theorem deletePoll_store (st : PStore) (pid u : String) :
    (DeletePoll st pid u).2 = st ∨ (DeletePoll st pid u).2 = sDeletePoll st pid := by
  unfold DeletePoll
  cases h : plookup st pid with
  | none => simp
  | some poll =>
    by_cases hc : poll.createdBy = u
    · simp [hc]
    · simp [hc]

/-- The frozen-when-inactive invariant for one poll id: the record is either
gone, or still inactive with the very same votes map. -/
def InactiveFrozen (pid : String) (v : Option (List (String × String))) (st : PStore) :
    Prop :=
  plookup st pid = none ∨
  ∃ p', plookup st pid = some p' ∧ p'.isActive = false ∧ p'.votes = v

theorem inactiveFrozen_pset_of_active (st : PStore) (pid : String)
    (v : Option (List (String × String))) (poll p' : Poll)
    (_hwf : StoreWF st) (hl : plookup st pid = none ∨
      ∃ q, plookup st pid = some q ∧ q.isActive = false ∧ q.votes = v)
    (hm : plookup st poll.id = some poll) (hi : poll.isActive = true)
    (hid : p'.id = poll.id) :
    InactiveFrozen pid v (sUpdatePoll st p') := by
  by_cases hq : poll.id = pid
  · exfalso
    rcases hl with hn | ⟨q, hq2, hqa, _⟩
    · rw [hq] at hm
      rw [hm] at hn
      cases hn
    · rw [hq] at hm
      rw [hm] at hq2
      cases hq2
      rw [hqa] at hi
      cases hi
  · have : plookup (sUpdatePoll st p') pid = plookup st pid := by
      rw [sUpdatePoll, pset, plookup, hid, lookupV_assocSet_ne st poll.id pid p'
        fun e => hq e.symm]
      rfl
    rw [InactiveFrozen, this]
    exact hl

theorem applyOp_preserves (pid : String) (v : Option (List (String × String)))
    (op : Op) (st : PStore) (hwf : StoreWF st) (hinv : InactiveFrozen pid v st)
    (hop : Op.createdID op ≠ some pid) :
    StoreWF (applyOp st op) ∧ InactiveFrozen pid v (applyOp st op) := by
  cases op with
  | create t o c i n =>
    have hi : i ≠ pid := fun e => hop (by simp [Op.createdID, e])
    rcases createPoll_store st t o c i n with h | h
    · rw [applyOp, h]
      exact ⟨hwf, hinv⟩
    · rw [applyOp, h]
      refine ⟨storeWF_append st i _ rfl hwf, ?_⟩
      rw [InactiveFrozen, plookup_append_ne st i pid _ hi]
      exact hinv
  | vote p o u =>
    rcases handleVote_store st p o u with h | ⟨poll, hm, hact, h⟩
    · rw [applyOp, h]
      exact ⟨hwf, hinv⟩
    · rw [applyOp, h]
      have hkey : poll.id = p := hwf (p, poll) (lookupV_mem st p poll hm)
      refine ⟨storeWF_pset st _ hwf, ?_⟩
      exact inactiveFrozen_pset_of_active st pid v poll _ hwf hinv (hkey ▸ hm) hact rfl
  | endp p u =>
    rcases endPoll_store st p u with h | ⟨poll, hm, hact, h⟩
    · rw [applyOp, h]
      exact ⟨hwf, hinv⟩
    · rw [applyOp, h]
      have hkey : poll.id = p := hwf (p, poll) (lookupV_mem st p poll hm)
      refine ⟨storeWF_pset st _ hwf, ?_⟩
      exact inactiveFrozen_pset_of_active st pid v poll _ hwf hinv (hkey ▸ hm) hact rfl
  | delete p u =>
    rcases deletePoll_store st p u with h | h
    · rw [applyOp, h]
      exact ⟨hwf, hinv⟩
    · rw [applyOp, h]
      refine ⟨storeWF_del st p hwf, ?_⟩
      by_cases hp : p = pid
      · subst hp
        exact Or.inl (lookupV_assocDel_self st p)
      · rw [InactiveFrozen, sDeletePoll, plookup,
          lookupV_assocDel_ne st p pid fun e => hp e.symm]
        exact hinv

theorem applyOps_preserves (pid : String) (v : Option (List (String × String)))
    (ops : List Op) (st : PStore) (hwf : StoreWF st) (hinv : InactiveFrozen pid v st)
    (hops : ∀ op ∈ ops, Op.createdID op ≠ some pid) :
    StoreWF (applyOps st ops) ∧ InactiveFrozen pid v (applyOps st ops) := by
  induction ops generalizing st with
  | nil => exact ⟨hwf, hinv⟩
  | cons op rest ih =>
    have hstep := applyOp_preserves pid v op st hwf hinv
      (hops op (List.mem_cons_self _ _))
    exact ih _ hstep.1 hstep.2 fun op2 h2 => hops op2 (List.mem_cons_of_mem _ h2)

/-- C4: once a poll is inactive, any sequence of service operations (with
create ids fresh, as `uuid.New()` guarantees) leaves it either deleted or
still inactive with its votes map untouched, and a direct vote attempt on it
fails `PollInactive` with the store unchanged. -/
theorem inactive_monotonic (st : PStore) (ops : List Op) (pid : String) (poll : Poll)
    (hwf : StoreWF st) (h : plookup st pid = some poll) (hi : poll.isActive = false)
    (hops : ∀ op ∈ ops, Op.createdID op ≠ some pid) :
    (plookup (applyOps st ops) pid = none ∨
      ∃ p', plookup (applyOps st ops) pid = some p' ∧ p'.isActive = false ∧
        p'.votes = poll.votes) ∧
    (∀ o u, HandleVote st pid o u = (.error .pollInactive, st)) := by
  constructor
  · exact (applyOps_preserves pid poll.votes ops st hwf
      (Or.inr ⟨poll, h, hi, rfl⟩) hops).2
  · intro o u
    simp [HandleVote, h, hi]

/-- Witness for C4: after a vote attempt on the closed demo poll and a delete
of the other poll, the closed poll is still stored, inactive, with the same
votes. -/
theorem inactive_monotonic_witness :
    StoreWF demoStore ∧
    ((plookup (applyOps demoStore [Op.vote "p2" "Yes" "dave", Op.delete "p1" "alice"])
        "p2" = none ∨
      ∃ p', plookup (applyOps demoStore
          [Op.vote "p2" "Yes" "dave", Op.delete "p1" "alice"]) "p2" = some p' ∧
        p'.isActive = false ∧ p'.votes = demoClosed.votes) ∧
     (∀ o u, HandleVote demoStore "p2" o u = (.error .pollInactive, demoStore))) :=
  ⟨by unfold StoreWF; decide,
   inactive_monotonic demoStore [Op.vote "p2" "Yes" "dave", Op.delete "p1" "alice"]
     "p2" demoClosed (by unfold StoreWF; decide) (by decide) rfl (by decide)⟩

/-! ## Decode/encode lemmas (storage adapter) -/

theorem isStrV_shape (x : TValue) (h : TValue.isStrV x = true) : ∃ s, x = .str s := by
  cases x with
  | str s => exact ⟨s, rfl⟩
  | num n => simp [TValue.isStrV] at h
  | boolean b => simp [TValue.isStrV] at h
  | nilv => simp [TValue.isStrV] at h
  | arr ys => simp [TValue.isStrV] at h
  | tmap ys => simp [TValue.isStrV] at h

theorem all_isStrV_shape (xs : List TValue) (h : xs.all TValue.isStrV = true) :
    ∃ l : List String, xs = l.map TValue.str := by
  induction xs with
  | nil => exact ⟨[], rfl⟩
  | cons x rest ih =>
    rw [List.all_cons, Bool.and_eq_true] at h
    rcases ih h.2 with ⟨l, he⟩
    rcases isStrV_shape x h.1 with ⟨s, hs⟩
    exact ⟨s :: l, by simp [he, hs]⟩

theorem all_pairStr_shape (vs : List (TValue × TValue))
    (h : vs.all (fun kv => kv.1.isStrV && kv.2.isStrV) = true) :
    ∃ ws : List (String × String),
      vs = ws.map fun kv => (TValue.str kv.1, TValue.str kv.2) := by
  induction vs with
  | nil => exact ⟨[], rfl⟩
  | cons kv rest ih =>
    rw [List.all_cons, Bool.and_eq_true] at h
    rcases ih h.2 with ⟨ws, he⟩
    have h1 := h.1
    rw [Bool.and_eq_true] at h1
    rcases isStrV_shape kv.1 h1.1 with ⟨k, hk⟩
    rcases isStrV_shape kv.2 h1.2 with ⟨v, hv⟩
    refine ⟨(k, v) :: ws, ?_⟩
    rw [List.map_cons, ← he, ← hk, ← hv]

theorem asStringAll_map_str (l : List String) :
    asStringAll (l.map TValue.str) = some l := by
  induction l with
  | nil => rfl
  | cons s rest ih => simp [asStringAll, TValue.asString, ih]

theorem strKeys_map (ws : List (String × String)) :
    strKeys (ws.map fun kv => (TValue.str kv.1, TValue.str kv.2)) =
      ws.map Prod.fst := by
  induction ws with
  | nil => rfl
  | cons w rest ih => simp [strKeys, TValue.asString] at ih ⊢; exact ih

theorem strNodupB_iff (l : List String) : strNodupB l = true ↔ l.Nodup := by
  induction l with
  | nil => simp [strNodupB]
  | cons k rest ih =>
    rw [strNodupB, Bool.and_eq_true, ih, List.nodup_cons]
    simp

theorem convertMap_fold (ws : List (String × String)) (acc : List (String × String))
    (hnd : (ws.map Prod.fst).Nodup)
    (hdisj : ∀ kv ∈ acc, (kv : String × String).1 ∉ ws.map Prod.fst) :
    (ws.map fun kv => (TValue.str kv.1, TValue.str kv.2)).foldl
      (fun acc kv =>
        match kv.1.asString, kv.2.asString with
        | some k, some v => mapSet acc k v
        | _, _ => acc) acc = acc ++ ws := by
  induction ws generalizing acc with
  | nil => simp
  | cons w rest ih =>
    rw [List.map_cons, List.foldl_cons]
    have hstep : mapSet acc w.1 w.2 = acc ++ [(w.1, w.2)] := by
      rw [mapSet, assocSet, assocDel_eq_self]
      intro kv hm he
      exact hdisj kv hm (by rw [he]; simp)
    show List.foldl _ (mapSet acc w.1 w.2) (List.map _ rest) = acc ++ w :: rest
    rw [hstep, ih (acc ++ [(w.1, w.2)]) (nodupKeys_tail w rest hnd)]
    · simp
    · intro kv hm
      rcases List.mem_append.mp hm with hin | hone
      · exact fun hm2 => hdisj kv hin (List.mem_cons_of_mem _ hm2)
      · have hkv : kv = (w.1, w.2) := by simpa using hone
        rw [hkv]
        intro hm2
        rcases List.mem_map.mp hm2 with ⟨kv2, hkv2, he2⟩
        exact nodupKeys_head_not_mem w rest hnd kv2 hkv2 he2


theorem convertToMapStringString_map_str (ws : List (String × String))
    (hnd : (ws.map Prod.fst).Nodup) :
    convertToMapStringString
      (.tmap (ws.map fun kv => (TValue.str kv.1, TValue.str kv.2))) = some ws := by
  rw [convertToMapStringString]
  exact congrArg some (convertMap_fold ws [] hnd (by simp))

theorem decode_encode_roundtrip (t : TValue) (hw : wellFormedTuple t = true) :
    ∃ p, decodePollTuple t = .ok p ∧ encodePollTuple p = t := by
  unfold wellFormedTuple at hw
  split at hw
  case h_2 => exact absurd hw (by simp)
  case h_1 i ti opts cb ca ia vs =>
    rw [Bool.and_eq_true, Bool.and_eq_true] at hw
    obtain ⟨⟨hopts, hvs⟩, hnd⟩ := hw
    rcases all_isStrV_shape opts hopts with ⟨l, rfl⟩
    rcases all_pairStr_shape vs hvs with ⟨ws, rfl⟩
    rw [strKeys_map] at hnd
    refine ⟨⟨i, ti, some l, cb, ca, ia, some ws⟩, ?_, ?_⟩
    · rw [decodePollTuple]
      simp only [TValue.asString, TValue.asNat, TValue.asBool]
      rw [convertToStringSlice, asStringAll_map_str,
        convertToMapStringString_map_str ws ((strNodupB_iff _).mp hnd)]
    · rw [encodePollTuple, encodeStrList, encodeStrMap]

/-- C8: reading a well-formed stored 7-field tuple with `GetPoll` and writing
the decoded poll back with `UpdatePoll` (a replace) stores a record
field-for-field identical to the original: decode followed by re-encode is
the identity on well-formed records. -/
theorem getPoll_updatePoll_roundtrip (rows : List TValue) (id : String) (t : TValue)
    (hfind : rows.find? (tupleKeyIs id) = some t) (hw : wellFormedTuple t = true) :
    ∃ p, GetPoll rows id = .ok p ∧ encodePollTuple p = t ∧
      UpdatePollT rows p = rows.filter (fun r => !(tupleKeyIs p.id r)) ++ [t] := by
  rcases decode_encode_roundtrip t hw with ⟨p, hdec, henc⟩
  refine ⟨p, ?_, henc, ?_⟩
  · rw [GetPoll, hfind]
    exact hdec
  · rw [UpdatePollT, henc]

/-- A concrete well-formed stored row. -/
def wfRow : TValue :=
  .arr [.str "p1", .str "T", .arr [.str "Red", .str "Green"], .str "alice",
        .num 5, .boolean true, .tmap [(.str "bob", .str "Red")]]

/-- Witness for C8 on a concrete well-formed row. -/
theorem getPoll_updatePoll_roundtrip_witness :
    ∃ p, GetPoll [wfRow] "p1" = .ok p ∧ encodePollTuple p = wfRow ∧
      UpdatePollT [wfRow] p =
        [wfRow].filter (fun r => !(tupleKeyIs p.id r)) ++ [wfRow] :=
  getPoll_updatePoll_roundtrip [wfRow] "p1" wfRow rfl rfl

theorem convertToMapStringString_not_tmap (v : TValue) (h : ∀ ys, v ≠ .tmap ys) :
    convertToMapStringString v = none := by
  cases v with
  | tmap ys => exact absurd rfl (h ys)
  | str s => rfl
  | num n => rfl
  | boolean b => rfl
  | nilv => rfl
  | arr xs => rfl

theorem convertToStringSlice_not_arr (v : TValue) (h : ∀ ys, v ≠ .arr ys) :
    convertToStringSlice v = .ok none := by
  cases v with
  | arr xs => exact absurd rfl (h xs)
  | str s => rfl
  | num n => rfl
  | boolean b => rfl
  | nilv => rfl
  | tmap ys => rfl

/-- A stored row whose options field (index 2) is a plain string rather than
an array of strings. -/
def badOptionsRow : TValue :=
  .arr [.str "p1", .str "T", .str "oops", .str "alice", .num 5, .boolean true,
        .tmap []]

/-- The poll `GetPoll` silently builds from `badOptionsRow`: its options field
is Go nil. -/
def badOptionsPoll : Poll := ⟨"p1", "T", none, "alice", 5, true, some []⟩

/-- C1 counterexample: on a stored row whose options field has the wrong type,
`GetPoll` does not fail with a decode error — it succeeds and silently
defaults the options field to nil, exactly what the claim rules out. -/
theorem getPoll_silent_default_counterexample :
    GetPoll [badOptionsRow] "p1" = .ok badOptionsPoll ∧
    badOptionsPoll.options = none :=
  ⟨rfl, rfl⟩

/-- C1 amended: `GetPoll` fails `NotFound` when no row matches the key and
fails with the decode error when the found row is not a tuple of at least 7
fields; however a wrong-typed options or votes field is not a decode failure
— it is silently defaulted to Go nil — and a wrong-typed scalar field (id
here) panics instead of returning a typed decode error. -/
theorem getPoll_amended (rows : List TValue) (id : String) :
    (rows.find? (tupleKeyIs id) = none → GetPoll rows id = .error .notFound) ∧
    (∀ t, rows.find? (tupleKeyIs id) = some t → GetPoll rows id = decodePollTuple t) ∧
    (∀ xs, xs.length < 7 →
      decodePollTuple (.arr xs) = .error .invalidResponse) ∧
    (∀ s, decodePollTuple (.str s) = .error .invalidResponse) ∧
    (∀ i ti bad cb ca ia v6, (∀ ys, bad ≠ .arr ys) →
      decodePollTuple (.arr [.str i, .str ti, bad, .str cb, .num ca,
          .boolean ia, v6]) =
        .ok ⟨i, ti, none, cb, ca, ia, convertToMapStringString v6⟩) ∧
    (∀ i ti opts cb ca ia bad, (∀ ys, bad ≠ .tmap ys) →
      decodePollTuple (.arr [.str i, .str ti, .arr (opts.map TValue.str), .str cb,
          .num ca, .boolean ia, bad]) =
        .ok ⟨i, ti, some opts, cb, ca, ia, none⟩) ∧
    (∀ ti d2 cb ca ia v6 bad, TValue.asString bad = none →
      decodePollTuple (.arr [bad, .str ti, d2, .str cb, .num ca,
          .boolean ia, v6]) = .error .panicked) := by
  refine ⟨?_, ?_, ?_, ?_, ?_, ?_, ?_⟩
  · intro h
    rw [GetPoll, h]
  · intro t h
    rw [GetPoll, h]
  · intro xs hlen
    rcases xs with _ | ⟨a, _ | ⟨b, _ | ⟨c, _ | ⟨d, _ | ⟨e, _ | ⟨f, _ | ⟨g, rest2⟩⟩⟩⟩⟩⟩⟩
    · rfl
    · rfl
    · rfl
    · rfl
    · rfl
    · rfl
    · rfl
    · simp at hlen
      omega
  · intro s
    rfl
  · intro i ti bad cb ca ia v6 hb
    rw [decodePollTuple]
    simp only [TValue.asString, TValue.asNat, TValue.asBool]
    rw [convertToStringSlice_not_arr bad hb]
  · intro i ti opts cb ca ia bad hb
    rw [decodePollTuple]
    simp only [TValue.asString, TValue.asNat, TValue.asBool]
    rw [convertToStringSlice, asStringAll_map_str,
      convertToMapStringString_not_tmap bad hb]
  · intro ti d2 cb ca ia v6 bad hb
    rw [decodePollTuple, hb]

/-- Witness for the amended C1: the missing key, the short tuple, and the
silently-defaulted wrong-typed options field, all at concrete inputs. -/
theorem getPoll_amended_witness :
    GetPoll [] "p1" = .error .notFound ∧
    decodePollTuple badOptionsRow =
      .ok ⟨"p1", "T", none, "alice", 5, true, convertToMapStringString (.tmap [])⟩ ∧
    decodePollTuple (.arr [.str "x"]) = .error .invalidResponse :=
  ⟨(getPoll_amended [] "p1").1 rfl,
   (getPoll_amended [] "p1").2.2.2.2.1 "p1" "T" (.str "oops") "alice" 5 true
     (.tmap []) (fun ys h => TValue.noConfusion h),
   (getPoll_amended [] "p1").2.2.1 [.str "x"] (by simp)⟩

/-- Another concrete well-formed stored row. -/
def wfRow2 : TValue :=
  .arr [.str "p3", .str "U", .arr [.str "A", .str "B"], .str "carol", .num 6,
        .boolean true, .tmap []]

/-- A corrupt row whose id field is numeric: the unchecked assertion
`data[0].(string)` panics. -/
def badIdRow : TValue :=
  .arr [.num 9, .str "T", .arr [], .str "alice", .num 5, .boolean true, .tmap []]

/-- C7 counterexample: a corrupt individual row is not always skipped — a row
with a wrong-typed id field panics and aborts the whole scan, hiding the
healthy well-formed row that follows it. -/
theorem listPolls_counterexample :
    ListPolls [wfRow, badIdRow, wfRow2] = .error .panicked ∧
    (∃ p, decodePollTuple wfRow2 = .ok p) :=
  ⟨rfl, ⟨⟨"p3", "U", some ["A", "B"], "carol", 6, true, some []⟩, rfl⟩⟩

/-- C7 amended: a row failing the tuple-shape check (not a tuple, or fewer
than 7 fields) is skipped and logged and the scan continues; when no row
panics, the scan returns exactly the decoded rows in order; `ListPolls` is
this conversion applied to the first 1000 fetched rows. -/
theorem listPolls_amended (rows : List TValue) :
    (∀ t rest, decodePollTuple t = .error .invalidResponse →
      convertResponseToPolls (t :: rest) = convertResponseToPolls rest) ∧
    ((∀ t ∈ rows, decodePollTuple t = .error .invalidResponse ∨
        ∃ p, decodePollTuple t = .ok p) →
      convertResponseToPolls rows =
        .ok (rows.filterMap fun t => (decodePollTuple t).toOption)) ∧
    ListPolls rows = convertResponseToPolls (rows.take 1000) := by
  refine ⟨?_, ?_, rfl⟩
  · intro t rest h
    simp only [convertResponseToPolls, h]
  · intro hall
    induction rows with
    | nil => rfl
    | cons t rest ih =>
      have hrest := ih fun t2 h2 => hall t2 (List.mem_cons_of_mem _ h2)
      rcases hall t (List.mem_cons_self _ _) with h | ⟨p, h⟩
      · rw [List.filterMap_cons]
        simp only [convertResponseToPolls, h, hrest, Except.toOption]
      · rw [List.filterMap_cons]
        simp only [convertResponseToPolls, h, hrest, Except.toOption, Except.map]

/-- A row that is not a tuple at all: it fails the shape check and is
skipped. -/
def junkRow : TValue := .str "junk"

/-- Witness for the amended C7: the shape-failing row is skipped and the scan
still returns the healthy row, at concrete inputs. -/
theorem listPolls_amended_witness :
    convertResponseToPolls [junkRow, wfRow2] = convertResponseToPolls [wfRow2] ∧
    convertResponseToPolls [junkRow, wfRow2] =
      .ok ([junkRow, wfRow2].filterMap fun t => (decodePollTuple t).toOption) :=
  ⟨(listPolls_amended [wfRow2]).1 junkRow [wfRow2] rfl,
   (listPolls_amended [junkRow, wfRow2]).2.1 (by
      intro t ht
      simp only [List.mem_cons, List.not_mem_nil, or_false] at ht
      rcases ht with rfl | rfl
      · exact Or.inl rfl
      · exact Or.inr ⟨⟨"p3", "U", some ["A", "B"], "carol", 6, true, some []⟩, rfl⟩)⟩

/-! ## Parser lemmas (C9) -/

theorem parseStep_plain (c : Char) (args : List (List Char)) (cur : List Char)
    (hq : c ≠ '"') (hw : isWS c = false) :
    parseStep ⟨args, cur, false⟩ c = ⟨args, cur ++ [c], false⟩ := by
  have hbeq : (c == '"') = false := beq_eq_false_iff_ne.mpr hq
  simp [parseStep, hbeq, hw]

theorem foldl_parseStep_plain (s : List Char) (args : List (List Char))
    (cur : List Char) (h : ∀ c ∈ s, c ≠ '"' ∧ isWS c = false) :
    s.foldl parseStep ⟨args, cur, false⟩ = ⟨args, cur ++ s, false⟩ := by
  induction s generalizing cur with
  | nil => simp
  | cons c rest ih =>
    have hc := h c (List.mem_cons_self _ _)
    rw [List.foldl_cons, parseStep_plain c args cur hc.1 hc.2,
      ih (cur ++ [c]) fun c2 h2 => h c2 (List.mem_cons_of_mem _ h2)]
    simp

theorem foldl_parseStep_quoted (s : List Char) (args : List (List Char))
    (cur : List Char) (h : ∀ c ∈ s, c ≠ '"') :
    s.foldl parseStep ⟨args, cur, true⟩ = ⟨args, cur ++ s, true⟩ := by
  induction s generalizing cur with
  | nil => simp
  | cons c rest ih =>
    have hbeq : (c == '"') = false :=
      beq_eq_false_iff_ne.mpr (h c (List.mem_cons_self _ _))
    have hstep : parseStep ⟨args, cur, true⟩ c = ⟨args, cur ++ [c], true⟩ := by
      by_cases hw : isWS c <;> simp [parseStep, hbeq, hw]
    rw [List.foldl_cons, hstep,
      ih (cur ++ [c]) fun c2 h2 => h c2 (List.mem_cons_of_mem _ h2)]
    simp

theorem isEmpty_false_of_ne_nil {α : Type} (l : List α) (h : l ≠ []) :
    l.isEmpty = false := by
  cases l with
  | nil => exact absurd rfl h
  | cons a rest => rfl

theorem foldl_parseStep_tok (t : Bool × List Char) (args : List (List Char))
    (h : GoodTok t) :
    (renderTok t ++ [' ']).foldl parseStep ⟨args, [], false⟩ =
      ⟨args ++ [t.2], [], false⟩ := by
  rcases t with ⟨q, s⟩
  rcases h with ⟨hne, hq, hp⟩
  have hse : s.isEmpty = false := isEmpty_false_of_ne_nil s hne
  cases q with
  | false =>
    rw [show renderTok (false, s) ++ [' '] = s ++ [' '] from rfl,
      List.foldl_append,
      foldl_parseStep_plain s args [] fun c hc => ⟨hq c hc, hp rfl c hc⟩]
    simp [parseStep, isWS, hse]
  | true =>
    have hsplit : renderTok (true, s) ++ [' '] = ['"'] ++ (s ++ ['"', ' ']) := by
      simp [renderTok]
    rw [hsplit, List.foldl_append]
    have h1 : List.foldl parseStep ⟨args, [], false⟩ ['"'] = ⟨args, [], true⟩ := by
      simp [parseStep]
    rw [h1, List.foldl_append, foldl_parseStep_quoted s args [] hq]
    simp [parseStep, isWS, hse]

theorem renderToks_cons (t : Bool × List Char) (ts : List (Bool × List Char)) :
    renderToks (t :: ts) = (renderTok t ++ [' ']) ++ renderToks ts := by
  simp [renderToks]

theorem foldl_parseStep_toks (ts : List (Bool × List Char)) (args : List (List Char))
    (h : ∀ t ∈ ts, GoodTok t) :
    (renderToks ts).foldl parseStep ⟨args, [], false⟩ =
      ⟨args ++ ts.map (fun t => t.2), [], false⟩ := by
  induction ts generalizing args with
  | nil => simp [renderToks]
  | cons t rest ih =>
    rw [renderToks_cons, List.foldl_append,
      foldl_parseStep_tok t args (h t (List.mem_cons_self _ _)),
      ih (args ++ [t.2]) fun t2 h2 => h t2 (List.mem_cons_of_mem _ h2)]
    simp

theorem foldl_parseStep_noquote (text : List Char) (args : List (List Char))
    (cur : List Char) (h : ∀ c ∈ text, c ≠ '"') :
    parseFinish (text.foldl parseStep ⟨args, cur, false⟩) =
      args ++ specSplitWSAux text cur := by
  induction text generalizing args cur with
  | nil =>
    by_cases hc : cur.isEmpty
    · simp [parseFinish, specSplitWSAux, hc]
    · have hcf : cur.isEmpty = false := by simpa using hc
      simp [parseFinish, specSplitWSAux, hcf]
  | cons c rest ih =>
    have hq : c ≠ '"' := h c (List.mem_cons_self _ _)
    have hbeq : (c == '"') = false := beq_eq_false_iff_ne.mpr hq
    have hrest : ∀ c2 ∈ rest, c2 ≠ '"' := fun c2 h2 => h c2 (List.mem_cons_of_mem _ h2)
    by_cases hw : isWS c
    · by_cases hc : cur.isEmpty
      · have hcn : cur = [] := by simpa using hc
        have hstep : parseStep ⟨args, cur, false⟩ c = ⟨args, cur, false⟩ := by
          simp [parseStep, hbeq, hw, hc]
        rw [List.foldl_cons, hstep, hcn, ih args [] hrest,
          specSplitWSAux, if_pos hw]
        simp
      · have hcf : cur.isEmpty = false := by simpa using hc
        have hstep : parseStep ⟨args, cur, false⟩ c = ⟨args ++ [cur], [], false⟩ := by
          simp [parseStep, hbeq, hw, hcf]
        rw [List.foldl_cons, hstep, ih (args ++ [cur]) [] hrest,
          specSplitWSAux, if_pos hw, if_neg (by simp [hcf])]
        simp
    · have hwf : isWS c = false := by simpa using hw
      rw [List.foldl_cons, parseStep_plain c args cur hq hwf,
        ih args (cur ++ [c]) hrest, specSplitWSAux, if_neg (by simp [hwf])]

/-- C9: the command argument parser splits quote-free text on whitespace;
renders a space-separated sequence of plain words and double-quoted runs as
one argument per token, quotes stripped and quoted whitespace preserved; and
treats an unterminated quote as one final argument extending to the end of
the input. -/
theorem parseCommandArgs_spec :
    (∀ text : List Char, (∀ c ∈ text, c ≠ '"') →
      parseCommandArgs text = specSplitWS text) ∧
    (∀ ts : List (Bool × List Char), (∀ t ∈ ts, GoodTok t) →
      parseCommandArgs (renderToks ts) = ts.map fun t => t.2) ∧
    (∀ (ts : List (Bool × List Char)) (q : List Char), (∀ t ∈ ts, GoodTok t) →
      q ≠ [] → (∀ c ∈ q, c ≠ '"') →
      parseCommandArgs (renderToks ts ++ '"' :: q) =
        ts.map (fun t => t.2) ++ [q]) := by
  refine ⟨?_, ?_, ?_⟩
  · intro text h
    rw [parseCommandArgs, specSplitWS]
    exact foldl_parseStep_noquote text [] [] h
  · intro ts h
    rw [parseCommandArgs, foldl_parseStep_toks ts [] h, parseFinish]
    simp
  · intro ts q hts hq hqc
    rw [parseCommandArgs, List.foldl_append, foldl_parseStep_toks ts [] hts]
    have h1 : List.foldl parseStep ⟨[] ++ ts.map (fun t => t.2), [], false⟩
        ('"' :: q) = ⟨ts.map (fun t => t.2), q, true⟩ := by
      rw [List.foldl_cons]
      have hstep : parseStep ⟨[] ++ ts.map (fun t => t.2), [], false⟩ '"' =
          ⟨ts.map (fun t => t.2), [], true⟩ := by
        simp [parseStep]
      rw [hstep, foldl_parseStep_quoted q _ [] hqc]
      simp
    rw [h1, parseFinish]
    simp [isEmpty_false_of_ne_nil q hq]

/-- Witness for C9: a quoted phrase plus a plain word, a quote-free split, and
an unterminated quote, at concrete inputs. -/
theorem parseCommandArgs_spec_witness :
    parseCommandArgs [' ', 'a', ' ', ' ', 'b'] =
      specSplitWS [' ', 'a', ' ', ' ', 'b'] ∧
    parseCommandArgs (renderToks [(true, ['a', ' ', 'b']), (false, ['c'])]) =
      [['a', ' ', 'b'], ['c']] ∧
    parseCommandArgs (renderToks ([] : List (Bool × List Char)) ++
        '"' :: ['x', ' ', 'y']) = [['x', ' ', 'y']] :=
  ⟨parseCommandArgs_spec.1 [' ', 'a', ' ', ' ', 'b'] (by decide),
   parseCommandArgs_spec.2.1 [(true, ['a', ' ', 'b']), (false, ['c'])] (by
      intro t ht
      simp only [List.mem_cons, List.not_mem_nil, or_false] at ht
      rcases ht with rfl | rfl
      · exact ⟨by decide, by decide, by decide⟩
      · exact ⟨by decide, by decide, by decide⟩),
   parseCommandArgs_spec.2.2 [] ['x', ' ', 'y'] (by simp) (by decide) (by decide)⟩

end VotingBot
